import Mathlib

/-!
Shallow embedding of `TradingBacktester.py` (class `TradingBacktester`):
an intraday breakout backtester replaying one session of price
observations.  Times are encoded as `Nat` in `HHMMSS` digit form (the
Python code compares fixed-width `"HH:MM:SS"` strings, which is the same
order); prices are `Int` (the arithmetic in the source is exact on the
point values it manipulates).  The pandas `NaN` that `max()`/`min()`
produce on an empty window is modelled as `none` in an `Option Int`
reference point: every comparison against `NaN` is false in Python, which
the `Option`-matching entry conditions reproduce.
-/

namespace Taifex

/-- One price observation (one row of the filtered session data). -/
structure Obs where
  time : Nat
  price : Int
  high : Int
  low : Int
deriving DecidableEq, Repr

/-- The `Type` column of a ledger row: `'Buy'`, `'Sell'` or the
`'Close All'` flatten marker. -/
inductive RowType where
  | buy
  | sell
  | closeAll
deriving DecidableEq, Repr

/-- The side of an entry intent passed to `execute_trade`. -/
inductive Side where
  | buy
  | sell
deriving DecidableEq, Repr

/-- The `RowType` written for a `Side`. -/
def Side.toRowType : Side → RowType
  | Side.buy => RowType.buy
  | Side.sell => RowType.sell

/-- One ledger row (the dict appended to `self.trades`). -/
structure TradeRow where
  tradeId : Option Nat
  parentTradeId : Option Nat
  entryTime : Option Nat
  rowType : RowType
  entryPrice : Option Int
  closeTime : Option Nat
  closePrice : Option Int
  profitLoss : Option Int
  takeProfit : Option Int
  stopLoss : Option Int
  lotSize : Option Nat
deriving DecidableEq, Repr

/-- The mutable fields of the `TradingBacktester` object (configuration
attributes included, exactly as `__init__` sets them up). -/
structure Backtester where
  trades : List TradeRow
  H : Option Int
  L : Option Int
  balance : Int
  entry_buffer : Int
  stop_loss : Int
  position_count : Nat
  max_positions : Nat
  parent_lot_size : Nat
  loss_count : Nat
  daily_loss_limit : Int
  cumulative_loss : Int
  last_entry_price : Option Int
  daily_profit_loss : Int
  parent_trade_id : Option Nat
  parent_close_time : Option Nat
  trade_id_counter : Nat
  safety_distance : Int
  update_reference : Bool
deriving DecidableEq, Repr

/-- The state `__init__` builds (default arguments: `verbose` ignored,
`update_reference=False`). -/
def initialState : Backtester :=
  { trades := []
    H := none
    L := none
    balance := 400000
    entry_buffer := 10
    stop_loss := 30
    position_count := 0
    max_positions := 4
    parent_lot_size := 2
    loss_count := 0
    daily_loss_limit := 180
    cumulative_loss := 0
    last_entry_price := none
    daily_profit_loss := 0
    parent_trade_id := none
    parent_close_time := none
    trade_id_counter := 0
    safety_distance := 30
    update_reference := false }

/-- Maximum over a list, `none` on the empty list (pandas `Series.max()`
yields `NaN` on an empty frame). -/
def listMax : List Int → Option Int
  | [] => none
  | x :: xs => some (xs.foldl max x)

/-- Minimum over a list, `none` on the empty list. -/
def listMin : List Int → Option Int
  | [] => none
  | x :: xs => some (xs.foldl min x)

/-- The opening-range rows: `Time` between `'08:45:00'` and `'09:04:59'`
inclusive (`set_reference_points`). -/
def openingWindow (data : List Obs) : List Obs :=
  data.filter (fun o => decide (84500 ≤ o.time) && decide (o.time ≤ 90459))

/-- Embeds `set_reference_points`: `H`/`L` from the opening window. -/
def setReferencePoints (data : List Obs) (st : Backtester) : Backtester :=
  { st with
    H := listMax ((openingWindow data).map (fun o => o.high))
    L := listMin ((openingWindow data).map (fun o => o.low)) }

/-- Embeds `update_reference_points(end_index)`: recompute `H`/`L` over the
prefix `data[:end_index+1]`; the caller passes that prefix. -/
def updateReferencePoints (dataPrefix : List Obs) (st : Backtester) : Backtester :=
  { st with
    H := listMax (dataPrefix.map (fun o => o.high))
    L := listMin (dataPrefix.map (fun o => o.low)) }

/-- The sign `1 if trade['Type'] == 'Buy' else -1`. -/
def sideSign (ty : RowType) : Int :=
  if ty = RowType.buy then 1 else -1

/-- Realized P&L of one row when closed at `closeP`:
`(close_price - entry_price) * sign * lot_size`. -/
def rowPnl (closeP : Int) (t : TradeRow) : Int :=
  (closeP - t.entryPrice.getD 0) * sideSign t.rowType * (t.lotSize.getD 0 : Int)

/-- A row is open iff its `Close Time` is still `None`. -/
def isOpenRow (t : TradeRow) : Bool :=
  t.closeTime = none

/-- Close one row at `(closeT, closeP)` if it is open, recording its
realized P&L; closed rows are untouched. -/
def closeOpenRow (closeT : Nat) (closeP : Int) (t : TradeRow) : TradeRow :=
  if t.closeTime = none then
    { t with
      closeTime := some closeT
      closePrice := some closeP
      profitLoss := some (rowPnl closeP t) }
  else t

/-- Total realized P&L of the currently open rows at `closeP`
(the running `total_profit_loss` of `close_all_positions`). -/
def openPnlTotal (closeP : Int) (trades : List TradeRow) : Int :=
  (trades.filter isOpenRow).foldl (fun acc t => acc + rowPnl closeP t) 0

/-- The synthetic `'Close All'` marker row. -/
def flattenMarker (closeT : Nat) (closeP : Int) (total : Int) : TradeRow :=
  { tradeId := none
    parentTradeId := none
    entryTime := none
    rowType := RowType.closeAll
    entryPrice := none
    closeTime := some closeT
    closePrice := some closeP
    profitLoss := some total
    takeProfit := none
    stopLoss := none
    lotSize := none }

/-- Embeds `close_all_positions(index)`: close every open row at the current
observation, account the aggregate P&L (only its negative part feeds
`cumulative_loss`), count a losing flatten, append the marker row, zero
the position count, remember the close time as the parent close time,
re-anchor the reference points to the session prefix, and clear the
last entry price. -/
def closeAllPositions (obs : Obs) (dataPrefix : List Obs) (st : Backtester) :
    Backtester :=
  let closeT := obs.time
  let closeP := obs.price
  let total := openPnlTotal closeP st.trades
  let st1 :=
    { st with
      trades := st.trades.map (closeOpenRow closeT closeP) ++
        [flattenMarker closeT closeP total]
      daily_profit_loss := st.daily_profit_loss + total
      cumulative_loss := st.cumulative_loss + max 0 (-total)
      loss_count := st.loss_count + (if total < 0 then 1 else 0)
      position_count := 0
      parent_close_time := some closeT
      last_entry_price := none }
  updateReferencePoints dataPrefix st1

/-- The breakeven ratchet applied to one row in `check_stop_loss`: if the
favorable excursion strictly exceeds `safety_distance`, move the stop to
`entry_price + 1` (buy) or `entry_price - 1` (sell); otherwise leave the
row untouched. -/
def ratchetTrade (price sd : Int) (t : TradeRow) : TradeRow :=
  if t.rowType = RowType.buy ∧ price - t.entryPrice.getD 0 > sd then
    { t with stopLoss := some (t.entryPrice.getD 0 + 1) }
  else if t.rowType = RowType.sell ∧ t.entryPrice.getD 0 - price > sd then
    { t with stopLoss := some (t.entryPrice.getD 0 - 1) }
  else t

/-- The stop-trigger test of `check_stop_loss`, read against the row's
current (possibly just ratcheted) stop. -/
def stopTriggered (price : Int) (t : TradeRow) : Prop :=
  (t.rowType = RowType.buy ∧ price ≤ t.stopLoss.getD 0) ∨
  (t.rowType = RowType.sell ∧ price ≥ t.stopLoss.getD 0)

instance (price : Int) (t : TradeRow) : Decidable (stopTriggered price t) := by
  unfold stopTriggered; infer_instance

/-- The `for trade in self.trades` walk of `check_stop_loss`: ratchet each
open row in order; at the first open row whose (post-ratchet) stop is
crossed, stop walking and report a trigger, leaving later rows
untouched (the Python loop `break`s there). -/
def ratchetUntilTrigger (price sd : Int) : List TradeRow → List TradeRow × Bool
  | [] => ([], false)
  | t :: ts =>
    if t.closeTime = none then
      let t1 := ratchetTrade price sd t
      if stopTriggered price t1 then (t1 :: ts, true)
      else
        let r := ratchetUntilTrigger price sd ts
        (t1 :: r.1, r.2)
    else
      let r := ratchetUntilTrigger price sd ts
      (t :: r.1, r.2)

/-- Embeds `check_stop_loss(index)`: ratchet stops in ledger order and flatten
everything at the current observation as soon as any open row's stop is
crossed. -/
def checkStopLoss (obs : Obs) (dataPrefix : List Obs) (st : Backtester) :
    Backtester :=
  let r := ratchetUntilTrigger obs.price st.safety_distance st.trades
  let st1 := { st with trades := r.1 }
  if r.2 then closeAllPositions obs dataPrefix st1 else st1

/-- The stale-group reset at the top of `execute_trade`: if the parent
trade was closed at or before the current time, clear the group
tracking so the next fill starts a fresh group. -/
def resetParentIfClosed (now : Nat) (st : Backtester) : Backtester :=
  match st.parent_close_time with
  | some ct =>
      if now ≥ ct then
        { st with parent_trade_id := none, parent_close_time := none }
      else st
  | none => st

/-- The spacing suppression of `execute_trade`: with a last fill on
record, a buy within `safety_distance` above it (or a sell within
`safety_distance` below it) is rejected. -/
def spacingSuppressed (ty : Side) (actual : Int) (st : Backtester) : Prop :=
  match st.last_entry_price with
  | some lep =>
      (ty = Side.buy ∧ actual - lep ≤ st.safety_distance) ∨
      (ty = Side.sell ∧ lep - actual ≤ st.safety_distance)
  | none => False

instance (ty : Side) (actual : Int) (st : Backtester) :
    Decidable (spacingSuppressed ty actual st) := by
  unfold spacingSuppressed
  cases st.last_entry_price <;> infer_instance

/-- The lot-size rule of `execute_trade`:
`1 if loss_count >= 2 else parent_lot_size if is_parent else 1`. -/
def lotSizeFor (lossCount : Nat) (parentLot : Nat) (isParent : Bool) : Nat :=
  if lossCount ≥ 2 then 1 else if isParent then parentLot else 1

/-- The trade dict `execute_trade` appends, built from the post-reset
state `st` (the reset never touches `stop_loss`, `loss_count` or
`parent_lot_size`, so reading them from `st` matches the source). -/
def newTradeRow (obs : Obs) (ty : Side) (st : Backtester) : TradeRow :=
  { tradeId := some (st.trade_id_counter + 1)
    parentTradeId := if st.parent_trade_id = none then none
      else st.parent_trade_id
    entryTime := some obs.time
    rowType := ty.toRowType
    entryPrice := some obs.price
    closeTime := none
    closePrice := none
    profitLoss := none
    takeProfit := some (if ty = Side.buy then obs.price + st.stop_loss
      else obs.price - st.stop_loss)
    stopLoss := some (if ty = Side.buy then obs.price - st.stop_loss
      else obs.price + st.stop_loss)
    lotSize := some (lotSizeFor st.loss_count st.parent_lot_size
      (decide (st.parent_trade_id = none))) }

/-- Embeds `execute_trade(index, trade_type, entry_price)`: reset a stale group,
apply the spacing rule, size the lot, and — when the fill price still
satisfies the entry threshold — allocate an id, append the new row and
update position count and last fill price. -/
def executeTrade (obs : Obs) (ty : Side) (entryPrice : Int) (st0 : Backtester) :
    Backtester :=
  let actual := obs.price
  let st := resetParentIfClosed obs.time st0
  if spacingSuppressed ty actual st then st
  else if (ty = Side.buy ∧ actual ≥ entryPrice) ∨
       (ty = Side.sell ∧ actual ≤ entryPrice) then
    { st with
      trade_id_counter := st.trade_id_counter + 1
      parent_trade_id := if st.parent_trade_id = none
        then some (st.trade_id_counter + 1) else st.parent_trade_id
      position_count := st.position_count + lotSizeFor st.loss_count
        st.parent_lot_size (decide (st.parent_trade_id = none))
      last_entry_price := some actual
      trades := st.trades ++ [newTradeRow obs ty st] }
  else st

/-- The long entry condition of the replay loop:
`current_price >= self.H + self.entry_buffer and position_count < max_positions`
(false when `H` is the `NaN` of an empty opening window). -/
def buyCond (st : Backtester) (price : Int) : Bool :=
  (match st.H with
   | some hh => decide (price ≥ hh + st.entry_buffer)
   | none => false) &&
  decide (st.position_count < st.max_positions)

/-- The short entry condition of the replay loop:
`current_price <= self.L - self.entry_buffer and position_count < max_positions`. -/
def sellCond (st : Backtester) (price : Int) : Bool :=
  (match st.L with
   | some ll => decide (price ≤ ll - st.entry_buffer)
   | none => false) &&
  decide (st.position_count < st.max_positions)

/-- The `if/elif` entry dispatch of the loop body: the buy branch is
tested first, the sell branch only when it fails. -/
def entryDecision (st : Backtester) (price : Int) : Option Side :=
  if buyCond st price then some Side.buy
  else if sellCond st price then some Side.sell
  else none

/-- The entry evaluation of one loop iteration. -/
def entryStep (obs : Obs) (st : Backtester) : Backtester :=
  match entryDecision st obs.price with
  | some Side.buy => executeTrade obs Side.buy (st.H.getD 0 + st.entry_buffer) st
  | some Side.sell => executeTrade obs Side.sell (st.L.getD 0 - st.entry_buffer) st
  | none => st

/-- The entry evaluation followed by the guarded stop check
(`if position_count > 0: check_stop_loss(i)`) of one iteration. -/
def entryAndStop (obs : Obs) (dataPrefix : List Obs) (st : Backtester) :
    Backtester :=
  let st1 := entryStep obs st
  if st1.position_count > 0 then checkStopLoss obs dataPrefix st1 else st1

/-- A default observation, only used to fill the impossible
out-of-range branch of the minute-boundary lookup. -/
def obsDefault : Obs := { time := 0, price := 0, high := 0, low := 0 }

/-- The minute-refresh guard: `update_reference and i > 0 and
current_time[:5] != previous_time[:5]` (on `HHMMSS` codes the `[:5]`
minute prefix is division by 100). -/
def minuteBoundary (data : List Obs) (i : Nat) (obs : Obs) : Bool :=
  decide (0 < i) &&
  decide (obs.time / 100 ≠ ((data[i-1]?).getD obsDefault).time / 100)

/-- The `for i in range(start_index, len(data))` replay loop of
`backtest`, with the remaining iteration count as explicit fuel (the
caller supplies `data.length`, which over-approximates the remaining
indices, so the loop always ends by running out of rows).  Each
iteration: optional minute refresh, risk-governor break, cutoff-time
flatten-and-break, entry evaluation, guarded stop check. -/
def backtestLoop (data : List Obs) : Nat → Nat → Backtester → Backtester
  | 0, _, st => st
  | fuel + 1, i, st =>
    match data[i]? with
    | none => st
    | some obs =>
      let st := if st.update_reference && minuteBoundary data i obs then
          updateReferencePoints (data.take (i + 1)) st
        else st
      if st.cumulative_loss ≥ st.daily_loss_limit then st
      else if obs.time ≥ 134000 ∧ st.position_count > 0 then
        closeAllPositions obs (data.take (i + 1)) st
      else
        backtestLoop data fuel (i + 1) (entryAndStop obs (data.take (i + 1)) st)

/-- Embeds `backtest()`: find the first row at or after `'09:05:00'` (`None`
models the `IndexError` Python raises when there is none) and run the
replay loop from there. -/
def backtest (data : List Obs) (st : Backtester) : Option Backtester :=
  match data.findIdx? (fun o => decide (o.time ≥ 90500)) with
  | some k => some (backtestLoop data data.length k st)
  | none => none

/-- Embeds `process_single_file` without the I/O: construct a fresh state, set
the reference points, replay the session. -/
def runSession (data : List Obs) : Option Backtester :=
  backtest data (setReferencePoints data initialState)

/-- The ledger of a session replay (empty when the replay could not
start). -/
def sessionTrades (data : List Obs) : List TradeRow :=
  match runSession data with
  | some st => st.trades
  | none => []

/-- Number of `'Close All'` flatten-marker rows in a ledger. -/
def countMarkers (trades : List TradeRow) : Nat :=
  (trades.filter (fun t => t.rowType = RowType.closeAll)).length

/-- Number of distinct position groups ever opened: the group roots are
exactly the entry rows with no parent id. -/
def countGroups (trades : List TradeRow) : Nat :=
  (trades.filter
    (fun t => ¬ t.rowType = RowType.closeAll ∧ t.parentTradeId = none)).length

/-- Sum of the lot sizes of the rows still open in a ledger. -/
def openLotSum (trades : List TradeRow) : Nat :=
  ((trades.filter isOpenRow).map (fun t => t.lotSize.getD 0)).sum

/-- Observations ordered by time, as the data-model invariant requires. -/
def timesSorted (data : List Obs) : Prop :=
  data.Pairwise (fun a b => a.time ≤ b.time)

/-! ### Concrete fixtures used by witnesses and counterexamples -/

/-- An observation whose `High`/`Low` both equal its trade price. -/
def mkObs (t : Nat) (p : Int) : Obs := { time := t, price := p, high := p, low := p }

/-- A single open long row (entry `1010`, stop `980`, two lots). -/
def openBuyRow : TradeRow :=
  { tradeId := some 1, parentTradeId := none, entryTime := some 90500,
    rowType := RowType.buy, entryPrice := some 1010, closeTime := none,
    closePrice := none, profitLoss := none, takeProfit := some 1040,
    stopLoss := some 980, lotSize := some 2 }

/-- A session state holding `openBuyRow` as its only (open) trade. -/
def stWithOpenBuy : Backtester :=
  { initialState with position_count := 2, trades := [openBuyRow] }

/-- A session on which the flatten that first trips the daily loss limit
happens at the same step (time `09:07:00`) at which an entry was just
recorded: band `H = L = 1000`; a 2-lot long at `1010`, a pyramided long
at `1045`, then a collapse to `950` that both admits a short leg and
crosses the first long's stop, flattening for `-215 ≤ -180`. -/
def dataLossSameStep : List Obs :=
  [mkObs 84500 1000, mkObs 90500 1010, mkObs 90600 1045,
   mkObs 90700 950, mkObs 90800 950]

/-- A session that ends (series exhausted) one step after a long was
opened: the trade is never closed and no flatten marker is written. -/
def dataNoFlatten : List Obs := [mkObs 84500 1000, mkObs 90500 1010]

/-- A session whose opening-range window `[08:45:00, 09:04:59]` contains
no observation at all. -/
def dataEmptyWindow : List Obs := [mkObs 90500 1010]

/-- A session that is flat at the cutoff time and then breaks out at
`13:45:00`: the replay keeps evaluating entries past the cutoff. -/
def dataLateEntry : List Obs := [mkObs 84500 1000, mkObs 134500 1010]

/-! ### Basic facts about the single operations -/

theorem ratchetTrade_closeTime (p sd : Int) (t : TradeRow) :
    (ratchetTrade p sd t).closeTime = t.closeTime := by
  unfold ratchetTrade; split_ifs <;> rfl

theorem ratchetTrade_lotSize (p sd : Int) (t : TradeRow) :
    (ratchetTrade p sd t).lotSize = t.lotSize := by
  unfold ratchetTrade; split_ifs <;> rfl

theorem ratchetTrade_rowType (p sd : Int) (t : TradeRow) :
    (ratchetTrade p sd t).rowType = t.rowType := by
  unfold ratchetTrade; split_ifs <;> rfl

theorem ratchetTrade_entryPrice (p sd : Int) (t : TradeRow) :
    (ratchetTrade p sd t).entryPrice = t.entryPrice := by
  unfold ratchetTrade; split_ifs <;> rfl

theorem TradeRow.set_stopLoss_self (t : TradeRow) (v : Option Int)
    (h : t.stopLoss = v) : { t with stopLoss := v } = t := by
  cases t; simp_all

theorem closeOpenRow_closeTime (cT : Nat) (cP : Int) (t : TradeRow) :
    (closeOpenRow cT cP t).closeTime ≠ none := by
  unfold closeOpenRow
  split_ifs with h
  · simp
  · simpa using h

theorem closeOpenRow_of_open (cT : Nat) (cP : Int) (t : TradeRow)
    (h : t.closeTime = none) :
    (closeOpenRow cT cP t).closeTime = some cT ∧
    (closeOpenRow cT cP t).closePrice = some cP := by
  unfold closeOpenRow
  rw [if_pos h]
  exact ⟨rfl, rfl⟩

theorem closeAllPositions_position_count (obs : Obs) (pref : List Obs)
    (st : Backtester) : (closeAllPositions obs pref st).position_count = 0 := rfl

theorem closeAllPositions_trades (obs : Obs) (pref : List Obs)
    (st : Backtester) :
    (closeAllPositions obs pref st).trades =
      st.trades.map (closeOpenRow obs.time obs.price) ++
        [flattenMarker obs.time obs.price (openPnlTotal obs.price st.trades)] := rfl

theorem closeAllPositions_all_closed (obs : Obs) (pref : List Obs)
    (st : Backtester) :
    ∀ t ∈ (closeAllPositions obs pref st).trades, t.closeTime ≠ none := by
  intro t ht
  rw [closeAllPositions_trades] at ht
  rcases List.mem_append.1 ht with hm | hm
  · rcases List.mem_map.1 hm with ⟨u, _, rfl⟩
    exact closeOpenRow_closeTime _ _ u
  · rcases List.mem_singleton.1 hm with rfl
    simp [flattenMarker]

theorem closeAllPositions_cumulative (obs : Obs) (pref : List Obs)
    (st : Backtester) :
    (closeAllPositions obs pref st).cumulative_loss =
      st.cumulative_loss + max 0 (-(openPnlTotal obs.price st.trades)) := rfl

theorem closeAllPositions_last_entry (obs : Obs) (pref : List Obs)
    (st : Backtester) :
    (closeAllPositions obs pref st).last_entry_price = none := rfl

theorem updateReferencePoints_frame (pref : List Obs) (st : Backtester) :
    (updateReferencePoints pref st).trades = st.trades ∧
    (updateReferencePoints pref st).position_count = st.position_count ∧
    (updateReferencePoints pref st).cumulative_loss = st.cumulative_loss ∧
    (updateReferencePoints pref st).daily_loss_limit = st.daily_loss_limit :=
  ⟨rfl, rfl, rfl, rfl⟩

theorem resetParentIfClosed_frame (now : Nat) (st : Backtester) :
    (resetParentIfClosed now st).trades = st.trades ∧
    (resetParentIfClosed now st).position_count = st.position_count ∧
    (resetParentIfClosed now st).cumulative_loss = st.cumulative_loss ∧
    (resetParentIfClosed now st).daily_loss_limit = st.daily_loss_limit ∧
    (resetParentIfClosed now st).loss_count = st.loss_count ∧
    (resetParentIfClosed now st).parent_lot_size = st.parent_lot_size ∧
    (resetParentIfClosed now st).last_entry_price = st.last_entry_price ∧
    (resetParentIfClosed now st).safety_distance = st.safety_distance := by
  unfold resetParentIfClosed
  rcases st.parent_close_time with _ | ct
  · exact ⟨rfl, rfl, rfl, rfl, rfl, rfl, rfl, rfl⟩
  · dsimp only
    split_ifs <;> exact ⟨rfl, rfl, rfl, rfl, rfl, rfl, rfl, rfl⟩

/-- Function `execute_trade` either only performs the stale-group reset (leaving
the ledger and the position count alone), or appends exactly one new open
row and raises the position count by that row's lot size. -/
theorem executeTrade_cases (obs : Obs) (ty : Side) (ep : Int)
    (st : Backtester) :
    ((executeTrade obs ty ep st).trades = st.trades ∧
     (executeTrade obs ty ep st).position_count = st.position_count) ∨
    (∃ row, row.closeTime = none ∧
       (executeTrade obs ty ep st).trades = st.trades ++ [row] ∧
       (executeTrade obs ty ep st).position_count =
         st.position_count + row.lotSize.getD 0) := by
  obtain ⟨ht, hp, -⟩ := resetParentIfClosed_frame obs.time st
  simp only [executeTrade]
  split_ifs with h1 h2 h3
  · exact Or.inl ⟨ht, hp⟩
  · refine Or.inr
      ⟨newTradeRow obs ty (resetParentIfClosed obs.time st), rfl, ?_, ?_⟩
    · simp [ht]
    · simp [hp, newTradeRow]
  · refine Or.inr
      ⟨newTradeRow obs ty (resetParentIfClosed obs.time st), rfl, ?_, ?_⟩
    · simp [ht]
    · simp [hp, newTradeRow]
  · exact Or.inl ⟨ht, hp⟩

theorem executeTrade_cum (obs : Obs) (ty : Side) (ep : Int)
    (st : Backtester) :
    (executeTrade obs ty ep st).cumulative_loss = st.cumulative_loss ∧
    (executeTrade obs ty ep st).daily_loss_limit = st.daily_loss_limit := by
  obtain ⟨-, -, hc, hd, -⟩ := resetParentIfClosed_frame obs.time st
  simp only [executeTrade]
  split_ifs <;> exact ⟨hc, hd⟩

theorem resetParentIfClosed_of_none (now : Nat) (st : Backtester)
    (h : st.parent_close_time = none) : resetParentIfClosed now st = st := by
  unfold resetParentIfClosed
  rw [h]

theorem buyCond_iff (st : Backtester) (price : Int) :
    buyCond st price = true ↔
      ((∃ hh, st.H = some hh ∧ price ≥ hh + st.entry_buffer) ∧
       st.position_count < st.max_positions) := by
  cases hH : st.H with
  | none => simp [buyCond, hH]
  | some hh => simp [buyCond, hH]

theorem sellCond_iff (st : Backtester) (price : Int) :
    sellCond st price = true ↔
      ((∃ ll, st.L = some ll ∧ price ≤ ll - st.entry_buffer) ∧
       st.position_count < st.max_positions) := by
  cases hL : st.L with
  | none => simp [sellCond, hL]
  | some ll => simp [sellCond, hL]

/-- C6: on each step a long entry is attempted exactly when the current
price is at least `band.high + entry_buffer` and the open-lot count is
below `max_positions`; a short exactly when the price is at most
`band.low - entry_buffer` with the same capacity check and the long
condition failing; and when both thresholds hold at once the long side
wins (the `elif` gives the buy branch precedence). -/
theorem entry_gate_long_precedence (st : Backtester) (price : Int) :
    (entryDecision st price = some Side.buy ↔
      ((∃ hh, st.H = some hh ∧ price ≥ hh + st.entry_buffer) ∧
       st.position_count < st.max_positions)) ∧
    (entryDecision st price = some Side.sell ↔
      (¬ ((∃ hh, st.H = some hh ∧ price ≥ hh + st.entry_buffer) ∧
          st.position_count < st.max_positions) ∧
       (∃ ll, st.L = some ll ∧ price ≤ ll - st.entry_buffer) ∧
       st.position_count < st.max_positions)) ∧
    (((∃ hh, st.H = some hh ∧ price ≥ hh + st.entry_buffer) ∧
      (∃ ll, st.L = some ll ∧ price ≤ ll - st.entry_buffer) ∧
      st.position_count < st.max_positions) →
      entryDecision st price = some Side.buy) := by
  have hbi := buyCond_iff st price
  have hsi := sellCond_iff st price
  refine ⟨?_, ?_, ?_⟩
  · rw [← hbi]
    unfold entryDecision
    split_ifs with hb hs <;> simp_all
  · rw [← hbi, ← hsi]
    unfold entryDecision
    split_ifs with hb hs <;> simp_all
  · rintro ⟨h1, h2, h3⟩
    unfold entryDecision
    rw [if_pos (hbi.mpr ⟨h1, h3⟩)]

/-- Concrete application of the entry-gate theorem: with band
`H = 0, L = 100` (an inverted band) and price `50` both thresholds hold
and the long side is chosen. -/
theorem entry_gate_long_precedence_witness :
    entryDecision { initialState with H := some 0, L := some 100 } 50 =
      some Side.buy :=
  (entry_gate_long_precedence { initialState with H := some 0, L := some 100 }
    50).2.2 ⟨⟨0, rfl, by decide⟩, ⟨100, rfl, by decide⟩, by decide⟩

/-- C3: the breakeven stop ratchet of `check_stop_loss` (i) fires exactly
the spec'd assignment — excursion above `safety_distance` sets the stop
to `entry_price + 1` (long) / `entry_price - 1` (short); (ii) is
monotone — starting from any stop at or below breakeven-plus (long,
dually short) it never moves the stop back toward the original stop;
(iii) is idempotent, and a stop already at breakeven-plus is left
exactly unchanged. -/
theorem breakeven_ratchet_props :
    (∀ (p sd : Int) (t : TradeRow), t.rowType = RowType.buy →
        sd < p - t.entryPrice.getD 0 →
        (ratchetTrade p sd t).stopLoss = some (t.entryPrice.getD 0 + 1)) ∧
    (∀ (p sd : Int) (t : TradeRow), t.rowType = RowType.sell →
        sd < t.entryPrice.getD 0 - p →
        (ratchetTrade p sd t).stopLoss = some (t.entryPrice.getD 0 - 1)) ∧
    (∀ (p sd : Int) (t : TradeRow), t.rowType = RowType.buy →
        t.stopLoss.getD 0 ≤ t.entryPrice.getD 0 + 1 →
        t.stopLoss.getD 0 ≤ (ratchetTrade p sd t).stopLoss.getD 0) ∧
    (∀ (p sd : Int) (t : TradeRow), t.rowType = RowType.sell →
        t.entryPrice.getD 0 - 1 ≤ t.stopLoss.getD 0 →
        (ratchetTrade p sd t).stopLoss.getD 0 ≤ t.stopLoss.getD 0) ∧
    (∀ (p sd : Int) (t : TradeRow),
        ratchetTrade p sd (ratchetTrade p sd t) = ratchetTrade p sd t) ∧
    (∀ (p sd : Int) (t : TradeRow), t.rowType = RowType.buy →
        t.stopLoss = some (t.entryPrice.getD 0 + 1) →
        ratchetTrade p sd t = t) ∧
    (∀ (p sd : Int) (t : TradeRow), t.rowType = RowType.sell →
        t.stopLoss = some (t.entryPrice.getD 0 - 1) →
        ratchetTrade p sd t = t) := by
  refine ⟨?_, ?_, ?_, ?_, ?_, ?_, ?_⟩
  · intro p sd t hty hx
    unfold ratchetTrade
    rw [if_pos ⟨hty, hx⟩]
  · intro p sd t hty hx
    unfold ratchetTrade
    rw [if_neg, if_pos ⟨hty, hx⟩]
    rintro ⟨hb, -⟩
    rw [hty] at hb
    exact RowType.noConfusion hb
  · intro p sd t hty hle
    unfold ratchetTrade
    split_ifs with h1 h2
    · simpa using hle
    · rcases h2 with ⟨hs, -⟩
      rw [hty] at hs
      exact absurd hs (by simp)
    · exact le_refl _
  · intro p sd t hty hle
    unfold ratchetTrade
    split_ifs with h1 h2
    · rcases h1 with ⟨hb, -⟩
      rw [hty] at hb
      exact absurd hb (by simp)
    · simpa using hle
    · exact le_refl _
  · intro p sd t
    unfold ratchetTrade
    split_ifs with h1 h2 <;> simp_all
  · intro p sd t hty hsl
    unfold ratchetTrade
    split_ifs with h1 h2
    · exact TradeRow.set_stopLoss_self t _ hsl
    · rcases h2 with ⟨hs, -⟩
      rw [hty] at hs
      exact absurd hs (by simp)
    · rfl
  · intro p sd t hty hsl
    unfold ratchetTrade
    split_ifs with h1 h2
    · rcases h1 with ⟨hb, -⟩
      rw [hty] at hb
      exact absurd hb (by simp)
    · exact TradeRow.set_stopLoss_self t _ hsl
    · rfl

/-- Concrete application of the ratchet theorem: a long opened at `1000`
with price now `1040` (excursion `40 > 30`) gets its stop moved to
`1001`. -/
theorem breakeven_ratchet_props_witness :
    (ratchetTrade 1040 30
      { tradeId := some 1, parentTradeId := none, entryTime := some 90500,
        rowType := RowType.buy, entryPrice := some 1000, closeTime := none,
        closePrice := none, profitLoss := none, takeProfit := some 1030,
        stopLoss := some 970, lotSize := some 2 }).stopLoss = some 1001 :=
  breakeven_ratchet_props.1 1040 30 _ rfl (by decide)

/-- C7: a spacing-suppressed intent changes nothing.  `execute_trade`
does run its stale-group reset before the spacing check, but whenever a
last fill price is on record the parent close time is already cleared
(`close_all_positions` erases the last fill when it records a close
time, and any later fill re-clears the close time first — see
`closeAllPositions_last_entry` and `executeTrade_pct_none`), so under
that invariant the suppressed evaluation returns the state unchanged:
no row is appended, and group tracking, id counter, open-lot count and
last fill price are all untouched. -/
theorem spacing_suppression_is_noop (obs : Obs) (ty : Side) (ep : Int)
    (st : Backtester) (lep : Int)
    (hpct : st.parent_close_time = none)
    (hlast : st.last_entry_price = some lep)
    (hsup : (ty = Side.buy ∧ obs.price - lep ≤ st.safety_distance) ∨
            (ty = Side.sell ∧ lep - obs.price ≤ st.safety_distance)) :
    executeTrade obs ty ep st = st := by
  have hreset := resetParentIfClosed_of_none obs.time st hpct
  have hs : spacingSuppressed ty obs.price st := by
    unfold spacingSuppressed
    rw [hlast]
    exact hsup
  simp only [executeTrade, hreset]
  rw [if_pos hs]

/-- Concrete application of the suppression theorem: a buy intent `10`
points above the last fill (within the `30`-point safety distance) is a
no-op. -/
theorem spacing_suppression_is_noop_witness :
    executeTrade ⟨90600, 1010, 1010, 1010⟩ Side.buy 1010
      { initialState with last_entry_price := some 1000 } =
      { initialState with last_entry_price := some 1000 } :=
  spacing_suppression_is_noop ⟨90600, 1010, 1010, 1010⟩ Side.buy 1010
    { initialState with last_entry_price := some 1000 } 1000 rfl rfl
    (Or.inl ⟨rfl, by decide⟩)

/-- C5: when `execute_trade` does open a leg (the intent is not
spacing-suppressed and the fill price satisfies the entry threshold),
the appended row's lot size is `1` whenever the session's losing-flatten
count has reached `2`, regardless of parent/child role; below that
threshold the root leg of a fresh group (no active parent after the
stale-group reset) receives `parent_lot_size` and any non-root leg
receives exactly `1`. -/
theorem lot_sizing_rule (obs : Obs) (ty : Side) (ep : Int) (st : Backtester)
    (hns : ¬ spacingSuppressed ty obs.price (resetParentIfClosed obs.time st))
    (hcond : (ty = Side.buy ∧ obs.price ≥ ep) ∨
             (ty = Side.sell ∧ obs.price ≤ ep)) :
    (executeTrade obs ty ep st).trades =
      st.trades ++ [newTradeRow obs ty (resetParentIfClosed obs.time st)] ∧
    (newTradeRow obs ty (resetParentIfClosed obs.time st)).lotSize =
      some (if 2 ≤ st.loss_count then 1
        else if (resetParentIfClosed obs.time st).parent_trade_id = none
          then st.parent_lot_size else 1) := by
  obtain ⟨ht, -, -, -, hlc, hpl, -⟩ := resetParentIfClosed_frame obs.time st
  constructor
  · simp only [executeTrade]
    rw [if_neg hns, if_pos hcond]
    simp [ht]
  · simp only [newTradeRow, lotSizeFor, hlc, hpl]
    by_cases h2 : 2 ≤ st.loss_count
    · simp [h2]
    · rw [if_neg h2, if_neg h2]
      by_cases hip : (resetParentIfClosed obs.time st).parent_trade_id = none
      · simp [hip]
      · simp [hip]

/-- Concrete application of the lot-sizing theorem: the first fill of a
fresh session is a root leg and receives `parent_lot_size = 2`. -/
theorem lot_sizing_rule_witness :
    (executeTrade ⟨90500, 1010, 1010, 1010⟩ Side.buy 1010 initialState).trades =
      initialState.trades ++
        [newTradeRow ⟨90500, 1010, 1010, 1010⟩ Side.buy
          (resetParentIfClosed 90500 initialState)] ∧
    (newTradeRow ⟨90500, 1010, 1010, 1010⟩ Side.buy
        (resetParentIfClosed 90500 initialState)).lotSize =
      some (if 2 ≤ initialState.loss_count then 1
        else if (resetParentIfClosed 90500 initialState).parent_trade_id = none
          then initialState.parent_lot_size else 1) :=
  lot_sizing_rule ⟨90500, 1010, 1010, 1010⟩ Side.buy 1010 initialState
    (by decide) (Or.inl ⟨rfl, by decide⟩)

theorem ratchetUntilTrigger_length (p sd : Int) (l : List TradeRow) :
    (ratchetUntilTrigger p sd l).1.length = l.length := by
  induction l with
  | nil => rfl
  | cons t ts ih =>
    simp only [ratchetUntilTrigger]
    split_ifs <;> simp [ih]

theorem ratchetUntilTrigger_get (p sd : Int) (l : List TradeRow) (j : Nat) :
    ((ratchetUntilTrigger p sd l).1)[j]? = l[j]? ∨
    ((ratchetUntilTrigger p sd l).1)[j]? = (l[j]?).map (ratchetTrade p sd) := by
  induction l generalizing j with
  | nil => exact Or.inl rfl
  | cons t ts ih =>
    simp only [ratchetUntilTrigger]
    split_ifs with h1 h2
    · cases j with
      | zero => exact Or.inr (by simp)
      | succ n => exact Or.inl (by simp)
    · cases j with
      | zero => exact Or.inr (by simp)
      | succ n =>
        rcases ih n with hn | hn
        · exact Or.inl (by simpa using hn)
        · exact Or.inr (by simpa using hn)
    · cases j with
      | zero => exact Or.inl (by simp)
      | succ n =>
        rcases ih n with hn | hn
        · exact Or.inl (by simpa using hn)
        · exact Or.inr (by simpa using hn)

theorem ratchetUntilTrigger_triggers (p sd : Int) (l : List TradeRow)
    (h : ∃ t ∈ l, t.closeTime = none ∧ stopTriggered p (ratchetTrade p sd t)) :
    (ratchetUntilTrigger p sd l).2 = true := by
  induction l with
  | nil => simp at h
  | cons t ts ih =>
    rcases h with ⟨u, hu, huo, hut⟩
    simp only [ratchetUntilTrigger]
    rcases List.mem_cons.1 hu with rfl | hmem
    · rw [if_pos huo, if_pos hut]
    · split_ifs with h1 h2
      · rfl
      · simpa using ih ⟨u, hmem, huo, hut⟩
      · simpa using ih ⟨u, hmem, huo, hut⟩

theorem closeAllPositions_get (obs : Obs) (pref : List Obs) (st : Backtester)
    (j : Nat) (h : j < st.trades.length) :
    ((closeAllPositions obs pref st).trades)[j]? =
      some (closeOpenRow obs.time obs.price (st.trades.get ⟨j, h⟩)) := by
  rw [closeAllPositions_trades]
  rw [List.getElem?_append_left (by simpa using h)]
  rw [List.getElem?_map, List.getElem?_eq_getElem h]
  rfl

/-- C2: whenever the current price has crossed the (post-ratchet) stop of
any single open row, `check_stop_loss` flattens the whole position: the
open-position count is `0` afterwards, no row of the resulting ledger is
open, and every row that was open is closed at this observation's price
and time — not just the stopped leg. -/
theorem stop_cross_flattens_all (obs : Obs) (pref : List Obs) (st : Backtester)
    (h : ∃ t ∈ st.trades, t.closeTime = none ∧
        stopTriggered obs.price (ratchetTrade obs.price st.safety_distance t)) :
    (checkStopLoss obs pref st).position_count = 0 ∧
    (∀ t ∈ (checkStopLoss obs pref st).trades, t.closeTime ≠ none) ∧
    (∀ j (hj : j < st.trades.length),
      (st.trades.get ⟨j, hj⟩).closeTime = none →
      ∃ t', ((checkStopLoss obs pref st).trades)[j]? = some t' ∧
        t'.closeTime = some obs.time ∧ t'.closePrice = some obs.price) := by
  have htrig := ratchetUntilTrigger_triggers obs.price st.safety_distance
    st.trades h
  have hres : checkStopLoss obs pref st =
      closeAllPositions obs pref
        { st with
          trades := (ratchetUntilTrigger obs.price st.safety_distance
            st.trades).1 } := by
    simp only [checkStopLoss, htrig, if_true]
  refine ⟨?_, ?_, ?_⟩
  · rw [hres]; exact closeAllPositions_position_count _ _ _
  · rw [hres]; exact closeAllPositions_all_closed _ _ _
  · intro j hj hopen
    rw [hres]
    have hj1 : j <
        ({ st with
          trades := (ratchetUntilTrigger obs.price st.safety_distance
            st.trades).1 } : Backtester).trades.length := by
      simpa [ratchetUntilTrigger_length] using hj
    rw [closeAllPositions_get obs pref _ j hj1]
    have hlen : j <
        (ratchetUntilTrigger obs.price st.safety_distance st.trades).1.length := by
      simpa [ratchetUntilTrigger_length] using hj
    have hget := ratchetUntilTrigger_get obs.price st.safety_distance
      st.trades j
    have hjs : st.trades[j]? = some (st.trades.get ⟨j, hj⟩) := by
      rw [List.getElem?_eq_getElem hj]; rfl
    have hrow :
        (ratchetUntilTrigger obs.price st.safety_distance st.trades).1.get
          ⟨j, hlen⟩ = st.trades.get ⟨j, hj⟩ ∨
        (ratchetUntilTrigger obs.price st.safety_distance st.trades).1.get
          ⟨j, hlen⟩ =
          ratchetTrade obs.price st.safety_distance (st.trades.get ⟨j, hj⟩) := by
      rcases hget with hg | hg
      · left
        rw [hjs, List.getElem?_eq_getElem hlen] at hg
        simpa using hg
      · right
        rw [hjs, List.getElem?_eq_getElem hlen] at hg
        simpa using hg
    have hopen1 :
        ((ratchetUntilTrigger obs.price st.safety_distance
          st.trades).1.get ⟨j, hlen⟩).closeTime = none := by
      rcases hrow with hr | hr
      · rw [hr]; exact hopen
      · rw [hr, ratchetTrade_closeTime]; exact hopen
    obtain ⟨hc1, hc2⟩ := closeOpenRow_of_open obs.time obs.price _ hopen1
    exact ⟨_, rfl, hc1, hc2⟩

/-- Concrete application of the flatten-on-stop theorem: a single open
long with stop `980` and price now `975` flattens to zero open
positions. -/
theorem stop_cross_flattens_all_witness :
    (checkStopLoss ⟨90600, 975, 975, 975⟩ [] stWithOpenBuy).position_count = 0 :=
  (stop_cross_flattens_all ⟨90600, 975, 975, 975⟩ [] stWithOpenBuy
    ⟨openBuyRow, List.mem_singleton.mpr rfl, rfl, by decide⟩).1

theorem isOpenRow_ratchet (p sd : Int) (t : TradeRow) :
    isOpenRow (ratchetTrade p sd t) = isOpenRow t := by
  unfold isOpenRow
  rw [ratchetTrade_closeTime]

theorem openLotSum_cons (t : TradeRow) (ts : List TradeRow) :
    openLotSum (t :: ts) =
      (if isOpenRow t then t.lotSize.getD 0 else 0) + openLotSum ts := by
  unfold openLotSum
  rw [List.filter_cons]
  split_ifs with h <;> simp [h]

theorem openLotSum_append_one (l : List TradeRow) (r : TradeRow) :
    openLotSum (l ++ [r]) =
      openLotSum l + (if isOpenRow r then r.lotSize.getD 0 else 0) := by
  unfold openLotSum
  rw [List.filter_append]
  split_ifs with h <;> simp [List.filter_cons, h]

theorem openLotSum_ratchetUntilTrigger (p sd : Int) (l : List TradeRow) :
    openLotSum (ratchetUntilTrigger p sd l).1 = openLotSum l := by
  induction l with
  | nil => rfl
  | cons t ts ih =>
    simp only [ratchetUntilTrigger]
    split_ifs with h1 h2
    · rw [openLotSum_cons, openLotSum_cons, isOpenRow_ratchet,
        ratchetTrade_lotSize]
    · rw [openLotSum_cons, openLotSum_cons, isOpenRow_ratchet,
        ratchetTrade_lotSize, ih]
    · rw [openLotSum_cons, openLotSum_cons, ih]

theorem openLotSum_eq_zero (l : List TradeRow)
    (h : ∀ t ∈ l, t.closeTime ≠ none) : openLotSum l = 0 := by
  unfold openLotSum
  have : l.filter isOpenRow = [] := by
    rw [List.filter_eq_nil_iff]
    intro t ht
    simpa [isOpenRow] using h t ht
  rw [this]
  rfl

theorem closeAllPositions_openLotSum (obs : Obs) (pref : List Obs)
    (st : Backtester) :
    openLotSum (closeAllPositions obs pref st).trades = 0 :=
  openLotSum_eq_zero _ (closeAllPositions_all_closed obs pref st)

theorem executeTrade_posInv (obs : Obs) (ty : Side) (ep : Int)
    (st : Backtester) (h : st.position_count = openLotSum st.trades) :
    (executeTrade obs ty ep st).position_count =
      openLotSum (executeTrade obs ty ep st).trades := by
  rcases executeTrade_cases obs ty ep st with ⟨ht, hp⟩ | ⟨row, hro, ht, hp⟩
  · rw [ht, hp, h]
  · rw [ht, hp, h, openLotSum_append_one]
    have : isOpenRow row = true := by simp [isOpenRow, hro]
    rw [this]
    simp

theorem checkStopLoss_posInv (obs : Obs) (pref : List Obs) (st : Backtester)
    (h : st.position_count = openLotSum st.trades) :
    (checkStopLoss obs pref st).position_count =
      openLotSum (checkStopLoss obs pref st).trades := by
  simp only [checkStopLoss]
  split_ifs with htr
  · rw [closeAllPositions_position_count, closeAllPositions_openLotSum]
  · simpa [openLotSum_ratchetUntilTrigger] using h

theorem entryAndStop_posInv (obs : Obs) (pref : List Obs) (st : Backtester)
    (h : st.position_count = openLotSum st.trades) :
    (entryAndStop obs pref st).position_count =
      openLotSum (entryAndStop obs pref st).trades := by
  unfold entryAndStop entryStep
  cases hd : entryDecision st obs.price with
  | none =>
    dsimp only
    split_ifs with hp
    · exact checkStopLoss_posInv obs pref st h
    · exact h
  | some side =>
    cases side <;> dsimp only <;> split_ifs with hp
    · exact checkStopLoss_posInv obs pref _ (executeTrade_posInv _ _ _ _ h)
    · exact executeTrade_posInv _ _ _ _ h
    · exact checkStopLoss_posInv obs pref _ (executeTrade_posInv _ _ _ _ h)
    · exact executeTrade_posInv _ _ _ _ h

theorem backtestLoop_posInv (data : List Obs) (fuel : Nat) :
    ∀ (i : Nat) (st : Backtester),
      st.position_count = openLotSum st.trades →
      (backtestLoop data fuel i st).position_count =
        openLotSum (backtestLoop data fuel i st).trades := by
  induction fuel with
  | zero => intro i st h; exact h
  | succ fuel ih =>
    intro i st h
    simp only [backtestLoop]
    cases hobs : data[i]? with
    | none => exact h
    | some obs =>
      dsimp only
      set st1 := if st.update_reference && minuteBoundary data i obs then
          updateReferencePoints (data.take (i + 1)) st else st with hst1
      have h1 : st1.position_count = openLotSum st1.trades := by
        rw [hst1]
        split_ifs
        · exact h
        · exact h
      split_ifs with hcum hcut
      · exact h1
      · rw [closeAllPositions_position_count, closeAllPositions_openLotSum]
      · exact ih (i + 1) _ (entryAndStop_posInv obs _ _ h1)

/-- C9: the open-position count always equals the sum of the lot sizes of
the ledger rows whose close time is still unset: it holds of the fresh
state, every entry raises it by exactly the appended row's lot size,
every flatten zeroes both sides, and the whole replay loop preserves
it. -/
theorem position_count_invariant :
    initialState.position_count = openLotSum initialState.trades ∧
    (∀ (obs : Obs) (ty : Side) (ep : Int) (st : Backtester),
      ((executeTrade obs ty ep st).trades = st.trades ∧
        (executeTrade obs ty ep st).position_count = st.position_count) ∨
      (∃ row, row.closeTime = none ∧
        (executeTrade obs ty ep st).trades = st.trades ++ [row] ∧
        (executeTrade obs ty ep st).position_count =
          st.position_count + row.lotSize.getD 0)) ∧
    (∀ (obs : Obs) (pref : List Obs) (st : Backtester),
      (closeAllPositions obs pref st).position_count = 0 ∧
      openLotSum (closeAllPositions obs pref st).trades = 0) ∧
    (∀ (data : List Obs) (fuel i : Nat) (st : Backtester),
      st.position_count = openLotSum st.trades →
      (backtestLoop data fuel i st).position_count =
        openLotSum (backtestLoop data fuel i st).trades) :=
  ⟨rfl, executeTrade_cases,
    fun obs pref st => ⟨closeAllPositions_position_count obs pref st,
      closeAllPositions_openLotSum obs pref st⟩,
    fun data fuel i st h => backtestLoop_posInv data fuel i st h⟩

/-- Concrete application of the position invariant: it is preserved over
a full replay of a two-observation session. -/
theorem position_count_invariant_witness :
    (backtestLoop [mkObs 84500 1000, mkObs 90500 1010] 2 1
      (setReferencePoints [mkObs 84500 1000, mkObs 90500 1010]
        initialState)).position_count =
      openLotSum (backtestLoop [mkObs 84500 1000, mkObs 90500 1010] 2 1
        (setReferencePoints [mkObs 84500 1000, mkObs 90500 1010]
          initialState)).trades :=
  position_count_invariant.2.2.2 [mkObs 84500 1000, mkObs 90500 1010] 2 1
    (setReferencePoints [mkObs 84500 1000, mkObs 90500 1010] initialState)
    rfl

theorem backtestLoop_halted (data : List Obs) (fuel i : Nat) (st : Backtester)
    (h : st.daily_loss_limit ≤ st.cumulative_loss) :
    (backtestLoop data fuel i st).trades = st.trades := by
  cases fuel with
  | zero => rfl
  | succ fuel =>
    simp only [backtestLoop]
    cases hobs : data[i]? with
    | none => rfl
    | some obs =>
      dsimp only
      set st1 := if st.update_reference && minuteBoundary data i obs then
          updateReferencePoints (data.take (i + 1)) st else st with hst1
      have hfr : st1.cumulative_loss = st.cumulative_loss ∧
          st1.daily_loss_limit = st.daily_loss_limit ∧
          st1.trades = st.trades := by
        rw [hst1]
        split_ifs
        · exact ⟨rfl, rfl, rfl⟩
        · exact ⟨rfl, rfl, rfl⟩
      rw [if_pos]
      · exact hfr.2.2
      · rw [hfr.1, hfr.2.1]
        exact h

/-- C4 counterexample: on `dataLossSameStep` the halt condition first
becomes true at the single flatten, whose close time is `09:07:00` —
and the ledger contains an entry row (the short leg) whose entry time is
that same `09:07:00`.  The claim's "no new entry ... with an entry_time
at or after the step where the halt condition first became true" is
therefore false: entries evaluated earlier in the very step whose
stop-check flatten trips the limit share its timestamp. -/
theorem risk_governor_same_step_entry_cex :
    (runSession dataLossSameStep).map (fun st =>
      (decide (st.daily_loss_limit ≤ st.cumulative_loss),
       countMarkers st.trades,
       (st.trades.filter (fun t => t.rowType = RowType.closeAll)).map
         (fun t => t.closeTime),
       (st.trades.filter (fun t =>
         ¬ t.rowType = RowType.closeAll ∧ t.entryTime = some 90700)).length)) =
      some (true, 1, [some 90700], 1) := by
  decide

/-- C4 (amended): the governor halts exactly on `cumulative_loss ≥
daily_loss_limit` — once that holds at the top of an iteration the replay
appends nothing further to the ledger; and each flatten adds exactly the
negative part of its realized P&L to the cumulative loss (profitable
flattens never reduce it).  Entries recorded earlier within the very
step whose flatten first trips the limit may still carry that step's
time (see the counterexample); only later steps are clean. -/
theorem risk_governor_halt :
    (∀ (data : List Obs) (fuel i : Nat) (st : Backtester),
      st.daily_loss_limit ≤ st.cumulative_loss →
      (backtestLoop data fuel i st).trades = st.trades) ∧
    (∀ (obs : Obs) (pref : List Obs) (st : Backtester),
      (closeAllPositions obs pref st).cumulative_loss =
        st.cumulative_loss + max 0 (-(openPnlTotal obs.price st.trades)) ∧
      st.cumulative_loss ≤ (closeAllPositions obs pref st).cumulative_loss) :=
  ⟨fun data fuel i st h => backtestLoop_halted data fuel i st h,
   fun obs pref st =>
    ⟨closeAllPositions_cumulative obs pref st, by
      rw [closeAllPositions_cumulative obs pref st]
      exact le_add_of_nonneg_right (le_max_left 0 _)⟩⟩

/-- Concrete application of the halt theorem: a state whose cumulative
loss `200` exceeds the limit `180` replays one observation without
appending anything. -/
theorem risk_governor_halt_witness :
    (backtestLoop [mkObs 90500 1010] 1 0
      { initialState with cumulative_loss := 200 }).trades =
      ({ initialState with cumulative_loss := 200 } : Backtester).trades :=
  risk_governor_halt.1 [mkObs 90500 1010] 1 0
    { initialState with cumulative_loss := 200 } (by decide)

theorem entryStep_cum (obs : Obs) (st : Backtester) :
    (entryStep obs st).cumulative_loss = st.cumulative_loss ∧
    (entryStep obs st).daily_loss_limit = st.daily_loss_limit := by
  unfold entryStep
  cases entryDecision st obs.price with
  | none => exact ⟨rfl, rfl⟩
  | some side => cases side <;> exact executeTrade_cum _ _ _ _

theorem entryAndStop_risk (obs : Obs) (pref : List Obs) (st : Backtester) :
    (entryAndStop obs pref st).position_count = 0 ∨
    ((entryAndStop obs pref st).cumulative_loss = st.cumulative_loss ∧
     (entryAndStop obs pref st).daily_loss_limit = st.daily_loss_limit) := by
  have h1 := entryStep_cum obs st
  simp only [entryAndStop]
  split_ifs with hp
  · simp only [checkStopLoss]
    split_ifs with htr
    · exact Or.inl (closeAllPositions_position_count _ _ _)
    · exact Or.inr h1
  · exact Or.inr h1

theorem backtestLoop_risk_flat (data : List Obs) (fuel : Nat) :
    ∀ (i : Nat) (st : Backtester),
      (st.daily_loss_limit ≤ st.cumulative_loss → st.position_count = 0) →
      ((backtestLoop data fuel i st).daily_loss_limit ≤
          (backtestLoop data fuel i st).cumulative_loss →
        (backtestLoop data fuel i st).position_count = 0) := by
  induction fuel with
  | zero => intro i st h; exact h
  | succ fuel ih =>
    intro i st h
    simp only [backtestLoop]
    cases hobs : data[i]? with
    | none => exact h
    | some obs =>
      dsimp only
      set st1 := if st.update_reference && minuteBoundary data i obs then
          updateReferencePoints (data.take (i + 1)) st else st with hst1
      have h1 : st1.daily_loss_limit ≤ st1.cumulative_loss →
          st1.position_count = 0 := by
        rw [hst1]
        split_ifs
        · exact h
        · exact h
      split_ifs with hcum hcut
      · exact h1
      · intro
        exact closeAllPositions_position_count _ _ _
      · refine ih (i + 1) _ ?_
        rcases entryAndStop_risk obs (data.take (i + 1)) st1 with hz | ⟨hc, hd⟩
        · intro
          exact hz
        · intro hle
          rw [hc, hd] at hle
          exact absurd hle hcum

/-- C1 counterexample: on `dataNoFlatten` the series is exhausted one
step after a group was opened; no final flatten is forced, so the ledger
ends with one opened group but zero `'Close All'` marker rows — the
claimed equality between marker rows and opened groups fails. -/
theorem flatten_marker_count_cex :
    (runSession dataNoFlatten).map (fun st =>
      (countGroups st.trades, countMarkers st.trades)) = some (1, 0) ∧
    (1 : Nat) ≠ 0 := by
  exact ⟨by decide, by decide⟩

/-- C1 (amended): the one forced final flatten exists only on the
cutoff path — an iteration at or after `13:40:00` with open positions
(and the loss limit not yet hit) closes every open row before
terminating; and a risk-governor halt can never strand open trades,
because the flatten that trips the limit zeroes the position count
before the halt check runs.  Termination by plain series exhaustion,
however, forces no flatten, so marker rows can undercount opened
groups (see the counterexample). -/
theorem final_flatten_amended :
    (∀ (data : List Obs) (fuel i : Nat) (st : Backtester) (obs : Obs),
      data[i]? = some obs →
      st.update_reference = false →
      st.cumulative_loss < st.daily_loss_limit →
      134000 ≤ obs.time →
      0 < st.position_count →
      backtestLoop data (fuel + 1) i st =
        closeAllPositions obs (data.take (i + 1)) st ∧
      ∀ t ∈ (backtestLoop data (fuel + 1) i st).trades, t.closeTime ≠ none) ∧
    (∀ (data : List Obs) (fuel i : Nat) (st : Backtester),
      (st.daily_loss_limit ≤ st.cumulative_loss → st.position_count = 0) →
      ((backtestLoop data fuel i st).daily_loss_limit ≤
          (backtestLoop data fuel i st).cumulative_loss →
        (backtestLoop data fuel i st).position_count = 0)) := by
  constructor
  · intro data fuel i st obs hobs hur hlt hcut hpos
    have hcoll : (if st.update_reference && minuteBoundary data i obs then
        updateReferencePoints (data.take (i + 1)) st else st) = st := by
      rw [hur]
      simp
    have hstep : backtestLoop data (fuel + 1) i st =
        closeAllPositions obs (data.take (i + 1)) st := by
      simp only [backtestLoop, hobs]
      rw [hcoll, if_neg (not_le.mpr hlt), if_pos ⟨hcut, hpos⟩]
    exact ⟨hstep, by
      rw [hstep]
      exact closeAllPositions_all_closed _ _ _⟩
  · exact fun data fuel i st h => backtestLoop_risk_flat data fuel i st h

/-- Concrete application of the amended flatten theorem: a state with an
open long hitting the cutoff step flattens everything. -/
theorem final_flatten_amended_witness :
    backtestLoop [mkObs 84500 1000, mkObs 134000 990] (0 + 1) 1
        stWithOpenBuy =
      closeAllPositions (mkObs 134000 990)
        ([mkObs 84500 1000, mkObs 134000 990].take 2) stWithOpenBuy ∧
    ∀ t ∈ (backtestLoop [mkObs 84500 1000, mkObs 134000 990] (0 + 1) 1
        stWithOpenBuy).trades, t.closeTime ≠ none :=
  final_flatten_amended.1 [mkObs 84500 1000, mkObs 134000 990] 0 1
    stWithOpenBuy (mkObs 134000 990) rfl rfl (by decide) (by decide)
    (by decide)

/-- C10: reaching the cutoff time does not by itself end the replay —
the cutoff branch fires only with a positive open-position count.  With
no open position an iteration at or after `13:40:00` proceeds to entry
and stop evaluation exactly as any other step, and on `dataLateEntry`
this opens a new trade whose entry time `13:45:00` is after the
cutoff. -/
theorem cutoff_not_terminal_when_flat :
    (∀ (data : List Obs) (fuel i : Nat) (st : Backtester) (obs : Obs),
      data[i]? = some obs →
      st.update_reference = false →
      st.cumulative_loss < st.daily_loss_limit →
      134000 ≤ obs.time →
      st.position_count = 0 →
      backtestLoop data (fuel + 1) i st =
        backtestLoop data fuel (i + 1)
          (entryAndStop obs (data.take (i + 1)) st)) ∧
    ((runSession dataLateEntry).map (fun st =>
        st.trades.map (fun t => (t.rowType, t.entryTime))) =
      some [(RowType.buy, some 134500)]) := by
  constructor
  · intro data fuel i st obs hobs hur hlt hcut hpos
    have hcoll : (if st.update_reference && minuteBoundary data i obs then
        updateReferencePoints (data.take (i + 1)) st else st) = st := by
      rw [hur]
      simp
    simp only [backtestLoop, hobs]
    rw [hcoll, if_neg (not_le.mpr hlt), if_neg]
    rintro ⟨-, hp⟩
    rw [hpos] at hp
    exact lt_irrefl 0 hp
  · decide

/-- Concrete application of the cutoff theorem: the flat state at step
`1` of `dataLateEntry` (time `13:45:00`) continues into entry and stop
evaluation. -/
theorem cutoff_not_terminal_when_flat_witness :
    backtestLoop dataLateEntry (0 + 1) 1
        (setReferencePoints dataLateEntry initialState) =
      backtestLoop dataLateEntry 0 2
        (entryAndStop (mkObs 134500 1010) (dataLateEntry.take 2)
          (setReferencePoints dataLateEntry initialState)) :=
  cutoff_not_terminal_when_flat.1 dataLateEntry 0 1
    (setReferencePoints dataLateEntry initialState) (mkObs 134500 1010)
    rfl rfl (by decide) (by decide) rfl

theorem foldl_max_bounds (xs : List Int) (x : Int) :
    x ≤ xs.foldl max x ∧ ∀ y ∈ xs, y ≤ xs.foldl max x := by
  induction xs generalizing x with
  | nil => simp
  | cons a as ih =>
    obtain ⟨h1, h2⟩ := ih (max x a)
    refine ⟨le_trans (le_max_left x a) h1, ?_⟩
    intro y hy
    rcases List.mem_cons.1 hy with rfl | hmem
    · exact le_trans (le_max_right x y) h1
    · exact h2 y hmem

theorem foldl_max_mem (xs : List Int) (x : Int) :
    xs.foldl max x = x ∨ xs.foldl max x ∈ xs := by
  induction xs generalizing x with
  | nil => exact Or.inl rfl
  | cons a as ih =>
    rcases ih (max x a) with h | h
    · rcases max_choice x a with he | he
      · exact Or.inl (by rw [List.foldl_cons, h, he])
      · exact Or.inr (by rw [List.foldl_cons, h, he]; exact List.mem_cons_self a as)
    · exact Or.inr (List.mem_cons_of_mem a h)

theorem foldl_min_bounds (xs : List Int) (x : Int) :
    xs.foldl min x ≤ x ∧ ∀ y ∈ xs, xs.foldl min x ≤ y := by
  induction xs generalizing x with
  | nil => simp
  | cons a as ih =>
    obtain ⟨h1, h2⟩ := ih (min x a)
    refine ⟨le_trans h1 (min_le_left x a), ?_⟩
    intro y hy
    rcases List.mem_cons.1 hy with rfl | hmem
    · exact le_trans h1 (min_le_right x y)
    · exact h2 y hmem

theorem foldl_min_mem (xs : List Int) (x : Int) :
    xs.foldl min x = x ∨ xs.foldl min x ∈ xs := by
  induction xs generalizing x with
  | nil => exact Or.inl rfl
  | cons a as ih =>
    rcases ih (min x a) with h | h
    · rcases min_choice x a with he | he
      · exact Or.inl (by rw [List.foldl_cons, h, he])
      · exact Or.inr (by rw [List.foldl_cons, h, he]; exact List.mem_cons_self a as)
    · exact Or.inr (List.mem_cons_of_mem a h)

theorem listMax_spec (l : List Int) (h : l ≠ []) :
    ∃ m, listMax l = some m ∧ m ∈ l ∧ ∀ y ∈ l, y ≤ m := by
  cases l with
  | nil => exact absurd rfl h
  | cons x xs =>
    refine ⟨xs.foldl max x, rfl, ?_, ?_⟩
    · rcases foldl_max_mem xs x with he | he
      · rw [he]; exact List.mem_cons_self x xs
      · exact List.mem_cons_of_mem x he
    · intro y hy
      obtain ⟨h1, h2⟩ := foldl_max_bounds xs x
      rcases List.mem_cons.1 hy with rfl | hmem
      · exact h1
      · exact h2 y hmem

theorem listMin_spec (l : List Int) (h : l ≠ []) :
    ∃ m, listMin l = some m ∧ m ∈ l ∧ ∀ y ∈ l, m ≤ y := by
  cases l with
  | nil => exact absurd rfl h
  | cons x xs =>
    refine ⟨xs.foldl min x, rfl, ?_, ?_⟩
    · rcases foldl_min_mem xs x with he | he
      · rw [he]; exact List.mem_cons_self x xs
      · exact List.mem_cons_of_mem x he
    · intro y hy
      obtain ⟨h1, h2⟩ := foldl_min_bounds xs x
      rcases List.mem_cons.1 hy with rfl | hmem
      · exact h1
      · exact h2 y hmem

theorem entryAndStop_noop (obs : Obs) (pref : List Obs) (st : Backtester)
    (hH : st.H = none) (hL : st.L = none) (hpos : st.position_count = 0) :
    entryAndStop obs pref st = st := by
  have hb : buyCond st obs.price = false := by simp [buyCond, hH]
  have hs : sellCond st obs.price = false := by simp [sellCond, hL]
  have hd : entryDecision st obs.price = none := by
    unfold entryDecision
    rw [hb, hs]
    simp
  simp only [entryAndStop, entryStep, hd]
  rw [if_neg]
  rw [hpos]
  exact lt_irrefl 0

theorem backtestLoop_nan_band (data : List Obs) (fuel : Nat) :
    ∀ (i : Nat) (st : Backtester),
      st.H = none → st.L = none → st.position_count = 0 →
      st.update_reference = false →
      backtestLoop data fuel i st = st := by
  induction fuel with
  | zero => intro i st _ _ _ _; rfl
  | succ fuel ih =>
    intro i st hH hL hpos hur
    simp only [backtestLoop]
    cases hobs : data[i]? with
    | none => rfl
    | some obs =>
      dsimp only
      have hcoll : (if st.update_reference && minuteBoundary data i obs then
          updateReferencePoints (data.take (i + 1)) st else st) = st := by
        rw [hur]
        simp
      rw [hcoll]
      split_ifs with hcum hcut
      · rfl
      · exact absurd hcut.2 (by rw [hpos]; exact lt_irrefl 0)
      · rw [entryAndStop_noop obs _ st hH hL hpos]
        exact ih (i + 1) st hH hL hpos hur

/-- C8 counterexample: on `dataEmptyWindow` (no observation in the
opening-range window) no `EmptyWindowError` — or any failure at all —
occurs: `set_reference_points` silently stores the pandas `NaN`
(modelled `none`) in both reference points, the replay then runs to
completion, and the session simply produces an empty ledger. -/
theorem empty_window_no_error_cex :
    (runSession dataEmptyWindow).map (fun st => (st.H, st.L, st.trades)) =
      some (none, none, []) ∧
    (setReferencePoints dataEmptyWindow initialState).H = none := by
  exact ⟨by decide, rfl⟩

/-- C8 (amended): over a non-empty opening window the band is
`high = max` observed high and `low = min` observed low; over an empty
window no error is raised — both reference points are left as the `NaN`
of an empty pandas `max`/`min` (modelled `none`), every entry comparison
against that unset band is false, and (with the minute refresh disabled,
its default) the whole replay is a no-op: no entries can be evaluated,
but by silent inactivity, not by an `EmptyWindowError`. -/
theorem reference_band_amended :
    (∀ (data : List Obs) (st : Backtester), openingWindow data = [] →
      (setReferencePoints data st).H = none ∧
      (setReferencePoints data st).L = none) ∧
    (∀ (data : List Obs) (st : Backtester), openingWindow data ≠ [] →
      ∃ hh ll, (setReferencePoints data st).H = some hh ∧
        (setReferencePoints data st).L = some ll ∧
        hh ∈ (openingWindow data).map (fun o => o.high) ∧
        ll ∈ (openingWindow data).map (fun o => o.low) ∧
        ∀ o ∈ openingWindow data, o.high ≤ hh ∧ ll ≤ o.low) ∧
    (∀ (data : List Obs) (fuel i : Nat) (st : Backtester),
      st.H = none → st.L = none → st.position_count = 0 →
      st.update_reference = false →
      backtestLoop data fuel i st = st) := by
  refine ⟨?_, ?_, ?_⟩
  · intro data st h
    unfold setReferencePoints
    rw [h]
    exact ⟨rfl, rfl⟩
  · intro data st h
    obtain ⟨hh, hmax, hhm, hhb⟩ :=
      listMax_spec ((openingWindow data).map (fun o => o.high)) (by simpa using h)
    obtain ⟨ll, hmin, hlm, hlb⟩ :=
      listMin_spec ((openingWindow data).map (fun o => o.low)) (by simpa using h)
    refine ⟨hh, ll, ?_, ?_, hhm, hlm, ?_⟩
    · unfold setReferencePoints
      exact hmax
    · unfold setReferencePoints
      exact hmin
    · intro o ho
      exact ⟨hhb o.high (List.mem_map_of_mem (fun o => o.high) ho),
        hlb o.low (List.mem_map_of_mem (fun o => o.low) ho)⟩
  · exact fun data fuel i st hH hL hpos hur =>
      backtestLoop_nan_band data fuel i st hH hL hpos hur

/-- Concrete application of the amended reference-band theorem: the
empty-window session replays to exactly its starting state. -/
theorem reference_band_amended_witness :
    backtestLoop dataEmptyWindow 1 0
        (setReferencePoints dataEmptyWindow initialState) =
      setReferencePoints dataEmptyWindow initialState :=
  reference_band_amended.2.2 dataEmptyWindow 1 0
    (setReferencePoints dataEmptyWindow initialState) rfl rfl rfl rfl

/-- Support for the C7 invariant: whenever every recorded parent close
time lies at or before the current observation time (true on
time-ordered data, since close times are copied from earlier
observations), any call to `execute_trade` leaves the parent close time
cleared — so a state carrying a last fill price always carries no
parent close time, and the stale-group reset inside a later suppressed
call cannot change anything. -/
theorem executeTrade_pct_none (obs : Obs) (ty : Side) (ep : Int)
    (st : Backtester)
    (h : ∀ ct, st.parent_close_time = some ct → ct ≤ obs.time) :
    (executeTrade obs ty ep st).parent_close_time = none := by
  have hr : (resetParentIfClosed obs.time st).parent_close_time = none := by
    unfold resetParentIfClosed
    cases hp : st.parent_close_time with
    | none => exact hp
    | some ct =>
      dsimp only
      rw [if_pos (h ct hp)]
  simp only [executeTrade]
  split_ifs <;> exact hr

end Taifex
